import Mathlib

/-!
Verification of the FPL squad-selection optimizer core:
the ILP formulation (`stage1_build_viable_team` in analysis/gw3_wc.py,
`optimize_team_selection` in src/fpl_optimizer/analysis/gw3_wc.py,
`build_optimal_team` in wildcard_optimizer.py), the squad-viability
pre-check (`check_squad_viability`) and the differential-refinement swap
loop (`stage2_apply_differential_optimization`).

Modelling conventions:
* Prices, scores and ownership percentages are rationals (the scripts use
  Python floats; the constants involved — 100.0, 0.1, 1.05, the
  ownership-band multipliers — are exact decimals).
* A pandas DataFrame of players is a `List Player` in row order.
* NaN / ±infinity in the `score` or `price` column of the raw data is
  modelled by `Option ℚ` being `none` (the scripts first `replace` ±inf by
  NaN and then `dropna`; both kinds of row are dropped the same way).
* The external MIP solver (pulp/CBC) is a parameter
  `solve : List Player → List Constraint → SolveResult`: it is handed the
  candidate rows and the constraint rows the script adds to the `LpProblem`,
  and leaves behind a termination status and a 0/1 assignment of the binary
  decision variables.  Nothing is assumed about the assignment unless the
  status is `Optimal`; theorems that need solver guarantees take them as
  explicit hypotheses (`SoundAt`, completeness) at the exact call made.
  The objective function is irrelevant to every claim proved here (all are
  about feasibility, control flow and the refinement stage), so it is not
  carried in the problem description.
* Each selector returns a `RunLog`: the list of constraint systems actually
  handed to the solver (so "the solver is never invoked" is statable) and
  the returned squad (`none` models returning Python `None` / an empty
  DataFrame error sentinel).
-/

namespace FPL

/-- The four FPL position groups (the scripts use the labels GK/GKP, DEF,
MID, FWD; GKP and GK denote the same group). -/
inductive Pos where
  | GK | DEF | MID | FWD
deriving DecidableEq, Repr

/-- A candidate player row after numeric cleaning: id, position, club,
price ( `price` column), heuristic score (`position_score` /
`enhanced_score` / `wildcard_score` column) and ownership percentage
(`selected_by_percent` column). -/
structure Player where
  id : Nat
  pos : Pos
  club : Nat
  price : ℚ
  score : ℚ
  ownership : ℚ
deriving DecidableEq, Repr

/-- A raw candidate row before the NaN/inf cleaning step: `none` in
`price` or `score` models NaN or ±infinity in that column. -/
structure RawPlayer where
  id : Nat
  pos : Pos
  club : Nat
  price : Option ℚ
  score : Option ℚ
  ownership : ℚ
deriving DecidableEq, Repr

/-- The four positions, in the order of the scripts' quota tables. -/
def allPositions : List Pos := [Pos.GK, Pos.DEF, Pos.MID, Pos.FWD]

/-- Source `formation_constraints` / `squad_requirements`: exactly 2 GK, 5 DEF,
5 MID, 3 FWD. -/
def positionQuota : Pos → Nat
  | Pos.GK => 2
  | Pos.DEF => 5
  | Pos.MID => 5
  | Pos.FWD => 3

/-- Source `self.budget = 100.0`. -/
def budget : ℚ := 100

/-- Squad size: the `== 15` constraint. -/
def squadSize : Nat := 15

/-- Per-club cap: the `<= 3` constraints. -/
def maxPerClub : Nat := 3

/-- Total price of a list of players (`team['price'].sum()`). -/
def priceSum (l : List Player) : ℚ := (l.map fun t => t.price).sum

/-- Number of players of position `p` in `l`. -/
def posCount (l : List Player) (p : Pos) : Nat :=
  l.countP fun t => decide (t.pos = p)

/-- Number of players of club `c` in `l`. -/
def clubCount (l : List Player) (c : Nat) : Nat :=
  l.countP fun t => decide (t.club = c)

/-- Number of players with ownership below 15% (`selected_by_percent < 15`). -/
def diffCount (l : List Player) : Nat :=
  l.countP fun t => decide (t.ownership < 15)

/-- Number of players with ownership above 30% (`selected_by_percent > 30`). -/
def templateCount (l : List Player) : Nat :=
  l.countP fun t => decide (30 < t.ownership)

/-- The players whose binary decision variable is 1: row `i` of the pool is
selected iff entry `i` of the 0/1 assignment is `true`
(`value(player_vars[idx]) == 1` extraction loops). -/
def selectTeam : List Player → List Bool → List Player
  | [], _ => []
  | _ :: _, [] => []
  | q :: qs, b :: bs => if b then q :: selectTeam qs bs else selectTeam qs bs

/-- Termination statuses of the LP solver (`LpStatus`). -/
inductive SolveStatus where
  | Optimal | NotSolved | Infeasible | Unbounded | Undefined
deriving DecidableEq, Repr

/-- What a solver call leaves behind: the reported status and the values of
the binary decision variables (one per candidate row, in row order).  When
the status is not `Optimal` the assignment is whatever the solver left —
the scripts read it back with no further check. -/
structure SolveResult where
  status : SolveStatus
  choice : List Bool
deriving DecidableEq, Repr

/-- One constraint row added to the `LpProblem`. -/
inductive Constraint where
  | budgetLe : Constraint
  | squadSizeEq : Constraint
  | posQuota (p : Pos) : Constraint
  | clubCap (c : Nat) : Constraint
  | minDifferentials : Constraint
  | maxTemplate : Constraint
deriving DecidableEq, Repr

/-- The external MIP solver, abstracted: candidate rows and the posed
constraint rows in, status and variable assignment out. -/
abbrev Solver := List Player → List Constraint → SolveResult

/-- Semantics of one constraint row over a pool and a 0/1 assignment. -/
def constraintHolds (pool : List Player) (ch : List Bool) : Constraint → Prop
  | Constraint.budgetLe => priceSum (selectTeam pool ch) ≤ budget
  | Constraint.squadSizeEq => (selectTeam pool ch).length = squadSize
  | Constraint.posQuota p => posCount (selectTeam pool ch) p = positionQuota p
  | Constraint.clubCap c => clubCount (selectTeam pool ch) c ≤ maxPerClub
  | Constraint.minDifferentials => 4 ≤ diffCount (selectTeam pool ch)
  | Constraint.maxTemplate => templateCount (selectTeam pool ch) ≤ 6

instance (pool : List Player) (ch : List Bool) (c : Constraint) :
    Decidable (constraintHolds pool ch c) := by
  cases c <;> dsimp [constraintHolds] <;> infer_instance

/-- The hard constraint rows every selector builds: budget ≤ 100, squad
size == 15, exact position quotas, and one per-club cap per club appearing
in the pool (`for team_id in players_clean['team'].unique()`). -/
def hardConstraints (pool : List Player) : List Constraint :=
  [Constraint.budgetLe, Constraint.squadSizeEq] ++
    allPositions.map Constraint.posQuota ++
    ((pool.map fun q => q.club).dedup.map Constraint.clubCap)

/-- The constraint system of `build_optimal_team`: the hard constraints,
plus — only when `mini_league_mode` — the two differential soft
constraints (at least 4 players under 15% ownership, at most 6 over 30%). -/
def wildcardConstraints (pool : List Player) (mini : Bool) : List Constraint :=
  hardConstraints pool ++
    (if mini then [Constraint.minDifferentials, Constraint.maxTemplate] else [])

/-- The assignment is one boolean per candidate row and satisfies every
posed constraint row. -/
def ChoiceFeasible (pool : List Player) (cs : List Constraint) (ch : List Bool) : Prop :=
  ch.length = pool.length ∧ ∀ c ∈ cs, constraintHolds pool ch c

instance (pool : List Player) (cs : List Constraint) (ch : List Bool) :
    Decidable (ChoiceFeasible pool cs ch) := by
  unfold ChoiceFeasible; infer_instance

/-- Soundness of the solver at one particular call: if it reports
`Optimal` there, the assignment it leaves satisfies the posed constraints.
This is the guarantee an exact MIP solver gives; it is assumed per call so
that it stays decidable for concrete instantiations. -/
def SoundAt (solve : Solver) (pool : List Player) (cs : List Constraint) : Prop :=
  (solve pool cs).status = SolveStatus.Optimal →
    ChoiceFeasible pool cs (solve pool cs).choice

instance (solve : Solver) (pool : List Player) (cs : List Constraint) :
    Decidable (SoundAt solve pool cs) := by
  unfold SoundAt; infer_instance

/-- What one selector run did: the constraint systems actually handed to
the solver, in order, and the squad returned (`none` = Python `None` or the
empty-DataFrame error sentinel). -/
structure RunLog where
  solves : List (List Constraint)
  result : Option (List Player)
deriving DecidableEq, Repr

/-- Source `np.maximum(score, 0.1)`: floor the heuristic score at 0.1. -/
def floorScore (q : Player) : Player :=
  { q with score := max q.score (1/10) }

/-- Source `dropna(subset=['score', 'price'])` after replacing ±inf by NaN: drop
every row whose score or price is NaN/±inf (modelled by `none`). -/
def dropInvalid (pool : List RawPlayer) : List Player :=
  pool.filterMap fun r =>
    match r.price, r.score with
    | some pr, some sc => some ⟨r.id, r.pos, r.club, pr, sc, r.ownership⟩
    | _, _ => none

/-- The cleaning prologue shared by `stage1_build_viable_team` and
`build_optimal_team`: drop NaN/inf rows, then floor scores at 0.1. -/
def cleanPool (pool : List RawPlayer) : List Player :=
  (dropInvalid pool).map floorScore

/-- Source `stage1_build_viable_team` (analysis/gw3_wc.py lines 149-214): clean
the pool; return `None` if fewer than 15 rows survive; otherwise pose the
hard constraints, solve once, and extract the selected rows only on an
`Optimal` status, returning `None` otherwise. -/
def stage1_build_viable_team (solve : Solver) (pool : List RawPlayer) : RunLog :=
  let cl := cleanPool pool
  if cl.length < 15 then ⟨[], none⟩
  else
    let r := solve cl (hardConstraints cl)
    if r.status = SolveStatus.Optimal then
      ⟨[hardConstraints cl], some (selectTeam cl r.choice)⟩
    else ⟨[hardConstraints cl], none⟩

/-- Source `build_optimal_team` (wildcard_optimizer.py lines 259-355) together
with its `_fallback_optimization` (lines 357-388): clean the pool; return
`None` under 15 rows; solve with the mini-league soft constraints when
`mini` is set.  On a non-`Optimal` status: if `mini`, re-solve once with
only the hard constraints and return that solve's extraction on `Optimal`,
`None` otherwise; if not `mini`, fall through and extract the first
solve's leftover assignment anyway (the source prints a warning and then
runs the extraction loop unconditionally). -/
def build_optimal_team (solve : Solver) (mini : Bool) (pool : List RawPlayer) : RunLog :=
  let cl := cleanPool pool
  if cl.length < 15 then ⟨[], none⟩
  else
    let first := solve cl (wildcardConstraints cl mini)
    if first.status ≠ SolveStatus.Optimal then
      if mini then
        let fb := solve cl (hardConstraints cl)
        if fb.status = SolveStatus.Optimal then
          ⟨[wildcardConstraints cl mini, hardConstraints cl], some (selectTeam cl fb.choice)⟩
        else ⟨[wildcardConstraints cl mini, hardConstraints cl], none⟩
      else ⟨[wildcardConstraints cl mini], some (selectTeam cl first.choice)⟩
    else ⟨[wildcardConstraints cl mini], some (selectTeam cl first.choice)⟩

/-- Candidates of position `p` in the pool
(`players_df[players_df['position'] == position]`). -/
def availableCount (pool : List Player) (p : Pos) : Nat := posCount pool p

/-- Source `nsmallest(required, 'price')` restricted to the prices: the
`positionQuota p` cheapest prices among position-`p` candidates. -/
def nsmallestPrices (pool : List Player) (p : Pos) : List ℚ :=
  (((pool.filter fun t => decide (t.pos = p)).map fun t => t.price).insertionSort
      (fun a b => a ≤ b)).take (positionQuota p)

/-- Source `min_cost`: sum over positions of the `positionQuota p` cheapest
position-`p` prices. -/
def minCost (pool : List Player) : ℚ :=
  (allPositions.map fun p => (nsmallestPrices pool p).sum).sum

/-- Source `check_squad_viability` (src/fpl_optimizer/analysis/gw3_wc.py lines
97-127): first loop fails if any position has fewer candidates than its
quota; second loop fails if `nsmallest` returns fewer rows than the quota;
finally fails if the minimum possible team cost exceeds the budget. -/
def check_squad_viability (pool : List Player) : Bool :=
  if allPositions.all fun p => decide (positionQuota p ≤ availableCount pool p) then
    if allPositions.all fun p => decide (positionQuota p ≤ (nsmallestPrices pool p).length) then
      decide (minCost pool ≤ budget)
    else false
  else false

/-- Source `optimize_team_selection` (src/fpl_optimizer/analysis/gw3_wc.py lines
129-212): run the viability check and return the empty-DataFrame sentinel
with no solver call if it fails; otherwise reduce the pool
(`filterStep` keeps the pool-reduction heuristics of lines 140-155
abstract — no claim concerns them), pose the hard constraints, solve, and
on a non-`Optimal` status hand the reduced pool to the greedy
`build_budget_team` fallback (kept abstract as `fallback`). -/
def optimize_team_selection (solve : Solver)
    (filterStep : List Player → List Player)
    (fallback : List Player → Option (List Player))
    (pool : List Player) : RunLog :=
  if check_squad_viability pool then
    let fp := filterStep pool
    let r := solve fp (hardConstraints fp)
    if r.status = SolveStatus.Optimal then
      ⟨[hardConstraints fp], some (selectTeam fp r.choice)⟩
    else ⟨[hardConstraints fp], fallback fp⟩
  else ⟨[], none⟩

/-- Source `get_ownership_multiplier` (analysis/gw3_wc.py lines 224-232). -/
def get_ownership_multiplier (x : ℚ) : ℚ :=
  if x < 5 then 115/100
  else if x < 15 then 108/100
  else if x < 30 then 1
  else 95/100

/-- Source `differential_score = position_score * ownership_multiplier`
(analysis/gw3_wc.py lines 234-235 and 378-381). -/
def differentialScore (q : Player) : ℚ :=
  q.score * get_ownership_multiplier q.ownership

/-- Pandas `idxmin`: the first element attaining the minimum of `f`. -/
def argminFirst (f : Player → ℚ) : List Player → Option Player
  | [] => none
  | a :: l =>
    match argminFirst f l with
    | none => some a
    | some m => if f m < f a then some m else some a

/-- Pandas `idxmax`: the first element attaining the maximum of `f`. -/
def argmaxFirst (f : Player → ℚ) : List Player → Option Player
  | [] => none
  | a :: l =>
    match argmaxFirst f l with
    | none => some a
    | some m => if f a < f m then some m else some a

/-- Source `current_pos_players`: squad members of position `p`. -/
def currentPos (team : List Player) (p : Pos) : List Player :=
  team.filter fun t => decide (t.pos = p)

/-- Source `available_pos_players`: pool candidates of position `p` whose id is
not in the squad. -/
def availPos (allP team : List Player) (p : Pos) : List Player :=
  allP.filter fun q => decide (q.pos = p) && team.all fun t => decide (t.id ≠ q.id)

/-- Source `budget_available = budget - (squad total price - worst price)`. -/
def budgetAvailable (team : List Player) (w : Player) : ℚ :=
  budget - (priceSum team - w.price)

/-- Source `affordable_replacements`: available candidates priced within the
freed budget headroom. -/
def affordablePos (allP team : List Player) (p : Pos) (w : Player) : List Player :=
  (availPos allP team p).filter fun q => decide (q.price ≤ budgetAvailable team w)

/-- The swap decision of one iteration of the stage-2 loop (analysis/
gw3_wc.py lines 246-270): skip if the squad or the pool has nobody in the
position; pick the worst current member by `differential_score`
(`idxmin`); skip if no replacement is affordable; pick the best
affordable replacement (`idxmax`); swap only when the best strictly beats
the worst's `differential_score` by more than 5%.  Returns the
(worst, best) pair when the source would swap. -/
def swapCandidate (allP team : List Player) (p : Pos) : Option (Player × Player) :=
  if (currentPos team p).isEmpty || (availPos allP team p).isEmpty then none
  else
    match argminFirst differentialScore (currentPos team p) with
    | none => none
    | some worst =>
      match argmaxFirst differentialScore (affordablePos allP team p worst) with
      | none => none
      | some best =>
        if differentialScore worst * (105/100) < differentialScore best then
          some (worst, best)
        else none

/-- One swap performed by stage 2: the position visited and the
(removed, added) pair. -/
abbrev SwapRec := Pos × Player × Player

/-- One iteration of the stage-2 `for position in ['FWD','MID','DEF','GK']`
loop, carrying the current squad and the log of swaps made so far (whose
length is `swaps_made`): stop once 3 swaps were made (`break`); otherwise
apply the swap decision — remove every squad row with the worst player's
id and append every pool row with the best player's id
(lines 274-276 of analysis/gw3_wc.py). -/
def stage2Step (allP : List Player) (st : List Player × List SwapRec) (p : Pos) :
    List Player × List SwapRec :=
  if 3 ≤ st.2.length then st
  else
    match swapCandidate allP st.1 p with
    | none => st
    | some (w, b) =>
      (st.1.filter (fun t => decide (t.id ≠ w.id)) ++
         allP.filter (fun q => decide (q.id = b.id)),
       st.2 ++ [(p, w, b)])

/-- The fixed priority order of the stage-2 swap loop. -/
def swapOrder : List Pos := [Pos.FWD, Pos.MID, Pos.DEF, Pos.GK]

/-- Source `stage2_apply_differential_optimization` (analysis/gw3_wc.py lines
216-281): one pass over the positions in priority order, at most 3 swaps.
Returns the final squad and the chronological swap log. -/
def stage2_apply_differential_optimization (team0 allP : List Player) :
    List Player × List SwapRec :=
  swapOrder.foldl (stage2Step allP) (team0, [])

/-- The §3 Squad invariants named by the claims: 15 players, total price
within budget, exact position quotas, at most 3 per club. -/
def squadInvariants (squad : List Player) : Prop :=
  squad.length = squadSize ∧
  priceSum squad ≤ budget ∧
  (∀ p : Pos, posCount squad p = positionQuota p) ∧
  (∀ c : Nat, clubCount squad c ≤ maxPerClub)

/-- The invariant the refinement stage maintains: 15 players, exact
quotas, budget respected, and pairwise-distinct ids (part of the §3
Squad invariant). -/
def teamInvariant (team : List Player) : Prop :=
  team.length = squadSize ∧
  (∀ p : Pos, posCount team p = positionQuota p) ∧
  priceSum team ≤ budget ∧
  (team.map fun t => t.id).Nodup

instance : Fintype Pos :=
  ⟨⟨{Pos.GK, Pos.DEF, Pos.MID, Pos.FWD}, by decide⟩, by intro x; cases x <;> decide⟩

instance (team : List Player) : Decidable (teamInvariant team) := by
  unfold teamInvariant; infer_instance

/-- The clubs represented in a list of players. -/
def clubsOf (squad : List Player) : List Nat := squad.map fun t => t.club

instance (squad : List Player) : Decidable (squadInvariants squad) := by
  unfold squadInvariants
  refine decidable_of_iff (squad.length = squadSize ∧ priceSum squad ≤ budget ∧
    (∀ p : Pos, posCount squad p = positionQuota p) ∧
    ∀ c ∈ clubsOf squad, clubCount squad c ≤ maxPerClub) ?_
  have hiff : (∀ c : Nat, clubCount squad c ≤ maxPerClub) ↔
      ∀ c ∈ clubsOf squad, clubCount squad c ≤ maxPerClub := by
    constructor
    · intro h c _; exact h c
    · intro h c
      by_cases hc : c ∈ clubsOf squad
      · exact h c hc
      · have hz : clubCount squad c = 0 := by
          unfold clubCount
          rw [List.countP_eq_zero]
          intro t ht htc
          exact hc (List.mem_map.mpr ⟨t, ht, (of_decide_eq_true htc).symm ▸ rfl⟩)
        rw [hz]; exact Nat.zero_le _
    -- `clubsOf squad` unfolds to `squad.map fun t => t.club` definitionally
  rw [hiff]

/-! ### Concrete data for witnesses and counterexamples -/

/-- A demo candidate: id `i`, position `p`, club `i % 5 + 1`, price 4.0,
score 10, ownership 10%. -/
def mkDemoPlayer (i : Nat) (p : Pos) : Player := ⟨i, p, i % 5 + 1, 4, 10, 10⟩

/-- A 15-player pool matching the quotas exactly: 2 GK, 5 DEF, 5 MID,
3 FWD; total price 60; at most 3 players per club. -/
def demoPool : List Player :=
  [mkDemoPlayer 1 Pos.GK, mkDemoPlayer 2 Pos.GK,
   mkDemoPlayer 3 Pos.DEF, mkDemoPlayer 4 Pos.DEF, mkDemoPlayer 5 Pos.DEF,
   mkDemoPlayer 6 Pos.DEF, mkDemoPlayer 7 Pos.DEF,
   mkDemoPlayer 8 Pos.MID, mkDemoPlayer 9 Pos.MID, mkDemoPlayer 10 Pos.MID,
   mkDemoPlayer 11 Pos.MID, mkDemoPlayer 12 Pos.MID,
   mkDemoPlayer 13 Pos.FWD, mkDemoPlayer 14 Pos.FWD, mkDemoPlayer 15 Pos.FWD]

/-- The same pool as raw rows (all columns valid). -/
def demoRawPool : List RawPlayer :=
  demoPool.map fun q => ⟨q.id, q.pos, q.club, some q.price, some q.score, q.ownership⟩

/-- The same raw pool with every score exactly 0. -/
def demoRawPool0 : List RawPlayer :=
  demoPool.map fun q => ⟨q.id, q.pos, q.club, some q.price, some 0, q.ownership⟩

/-- The assignment selecting all 15 demo players. -/
def demoChoice : List Bool := List.replicate 15 true

/-- A solver that terminates without an optimal solution and leaves a
leftover assignment selecting a single variable — the situation the
scripts' extraction loops read back unchecked. -/
def badSolve : Solver := fun _ _ => ⟨SolveStatus.NotSolved, true :: List.replicate 14 false⟩

/-- A solver that reports `Optimal` and selects all 15 demo players. -/
def goodSolve : Solver := fun _ _ => ⟨SolveStatus.Optimal, demoChoice⟩

/-- A high-scoring low-ownership forward outside the demo squad. -/
def extraFWD : Player := ⟨16, Pos.FWD, 6, 4, 50, 2⟩

/-- Refinement pool: the demo squad plus the extra forward. -/
def demoAll : List Player := demoPool ++ [extraFWD]

/-! ### Basic lemmas about team extraction -/

lemma selectTeam_subset :
    ∀ (pool : List Player) (ch : List Bool) (x : Player),
      x ∈ selectTeam pool ch → x ∈ pool := by
  intro pool
  induction pool with
  | nil => intro ch x hx; cases ch <;> simp [selectTeam] at hx
  | cons q qs ih =>
    intro ch x hx
    cases ch with
    | nil => simp [selectTeam] at hx
    | cons b bs =>
      cases b with
      | false =>
        simp only [selectTeam, if_neg Bool.false_ne_true] at hx
        exact List.mem_cons_of_mem _ (ih bs x hx)
      | true =>
        simp only [selectTeam, if_pos rfl] at hx
        rcases List.mem_cons.mp hx with rfl | hx
        · exact List.mem_cons_self _ _
        · exact List.mem_cons_of_mem _ (ih bs x hx)

lemma selectTeam_length_le :
    ∀ (pool : List Player) (ch : List Bool),
      (selectTeam pool ch).length ≤ pool.length := by
  intro pool
  induction pool with
  | nil => intro ch; cases ch <;> simp [selectTeam]
  | cons q qs ih =>
    intro ch
    cases ch with
    | nil => simp [selectTeam]
    | cons b bs =>
      cases b with
      | false =>
        simp only [selectTeam, if_neg Bool.false_ne_true]
        exact Nat.le_succ_of_le (ih bs)
      | true =>
        simp only [selectTeam, if_pos rfl, List.length_cons]
        exact Nat.succ_le_succ (ih bs)

lemma mem_hardConstraints_budget (pool : List Player) :
    Constraint.budgetLe ∈ hardConstraints pool := by
  simp [hardConstraints]

lemma mem_hardConstraints_size (pool : List Player) :
    Constraint.squadSizeEq ∈ hardConstraints pool := by
  simp [hardConstraints]

lemma mem_hardConstraints_quota (pool : List Player) (p : Pos) :
    Constraint.posQuota p ∈ hardConstraints pool := by
  simp only [hardConstraints, List.mem_append, List.mem_map]
  left; right
  exact ⟨p, by cases p <;> simp [allPositions], rfl⟩

lemma mem_hardConstraints_club (pool : List Player) (c : Nat)
    (hc : c ∈ (pool.map fun q => q.club).dedup) :
    Constraint.clubCap c ∈ hardConstraints pool := by
  simp only [hardConstraints, List.mem_append, List.mem_map]
  right
  exact ⟨c, hc, rfl⟩

lemma hard_subset_wildcard (pool : List Player) (mini : Bool) :
    ∀ c ∈ hardConstraints pool, c ∈ wildcardConstraints pool mini := by
  intro c hc
  simp only [wildcardConstraints, List.mem_append]
  exact Or.inl hc

/-- Core of the selector guarantee: any 0/1 assignment satisfying (at
least) the hard constraint rows the scripts build yields a squad meeting
every §3 invariant — squad size, budget, exact quotas, and the club cap
for every club (for clubs absent from the pool the count is 0). -/
lemma feasible_selectTeam_invariants (pool : List Player) (cs : List Constraint)
    (ch : List Bool) (hsub : ∀ c ∈ hardConstraints pool, c ∈ cs)
    (hfeas : ChoiceFeasible pool cs ch) :
    squadInvariants (selectTeam pool ch) := by
  obtain ⟨-, hall⟩ := hfeas
  refine ⟨?_, ?_, ?_, ?_⟩
  · exact hall _ (hsub _ (mem_hardConstraints_size pool))
  · exact hall _ (hsub _ (mem_hardConstraints_budget pool))
  · intro p
    exact hall _ (hsub _ (mem_hardConstraints_quota pool p))
  · intro c
    by_cases hc : c ∈ (pool.map fun q => q.club).dedup
    · exact hall _ (hsub _ (mem_hardConstraints_club pool c hc))
    · have hc2 : c ∉ pool.map fun q => q.club := fun h => hc (List.mem_dedup.mpr h)
      have : clubCount (selectTeam pool ch) c = 0 := by
        unfold clubCount
        rw [List.countP_eq_zero]
        intro t ht hteq
        exact hc2 (List.mem_map.mpr
          ⟨t, selectTeam_subset pool ch t ht, (of_decide_eq_true hteq).symm ▸ rfl⟩)
      rw [this]; exact Nat.zero_le _

/-! ### Claim C1 -/

/-- C1 counterexample.  The claim "if the Squad Selector returns a squad
at all, that squad contains exactly 15 players …" is false on the code:
`build_optimal_team` with `mini_league_mode=False` only prints a warning
on a non-`Optimal` solver status and then runs the extraction loop
anyway (wildcard_optimizer.py lines 339-355), returning whatever
assignment the solver left.  Concretely, with the demo pool and a solver
that terminates `NotSolved` leaving one variable set, a 1-player squad is
returned. -/
theorem build_optimal_team_nonoptimal_returns_invalid_squad :
    (build_optimal_team badSolve false demoRawPool).result ≠ none ∧
      ((build_optimal_team badSolve false demoRawPool).result.getD []).length = 1 ∧
      (badSolve (cleanPool demoRawPool)
        (wildcardConstraints (cleanPool demoRawPool) false)).status ≠ SolveStatus.Optimal := by
  refine ⟨?_, ?_, ?_⟩ <;> with_unfolding_all decide

/-- C1 (amended): every squad the selectors extract from a solve that
terminated `Optimal` satisfies all §3 invariants — 15 players, total
price ≤ 100, exactly 2 GK / 5 DEF / 5 MID / 3 FWD, at most 3 per club.
This covers every return path of `stage1_build_viable_team`, every return
path of `build_optimal_team` with `mini_league_mode=True`, and the ILP
path of `optimize_team_selection`; the non-optimal fall-through of
`build_optimal_team` with `mini_league_mode=False` (the counterexample)
and the greedy `build_budget_team` fallback carry no such guarantee. -/
theorem optimal_extraction_satisfies_squad_invariants
    (solve : Solver) (filterStep : List Player → List Player)
    (fallback : List Player → Option (List Player))
    (pool : List RawPlayer) (pool2 : List Player)
    (h1 : SoundAt solve (cleanPool pool) (hardConstraints (cleanPool pool)))
    (h2 : SoundAt solve (cleanPool pool) (wildcardConstraints (cleanPool pool) true))
    (h3 : SoundAt solve (filterStep pool2) (hardConstraints (filterStep pool2))) :
    (∀ team, (stage1_build_viable_team solve pool).result = some team →
       squadInvariants team) ∧
    (∀ team, (build_optimal_team solve true pool).result = some team →
       squadInvariants team) ∧
    ((solve (filterStep pool2) (hardConstraints (filterStep pool2))).status =
        SolveStatus.Optimal →
      ∀ team, (optimize_team_selection solve filterStep fallback pool2).result = some team →
        squadInvariants team) := by
  refine ⟨?_, ?_, ?_⟩
  · intro team hteam
    unfold stage1_build_viable_team at hteam
    by_cases hlen : (cleanPool pool).length < 15
    · simp only [if_pos hlen] at hteam; exact absurd hteam (by simp)
    · simp only [if_neg hlen] at hteam
      by_cases hst : (solve (cleanPool pool) (hardConstraints (cleanPool pool))).status =
          SolveStatus.Optimal
      · simp only [if_pos hst, Option.some.injEq] at hteam
        subst hteam
        exact feasible_selectTeam_invariants _ _ _ (fun c hc => hc) (h1 hst)
      · simp only [if_neg hst] at hteam; exact absurd hteam (by simp)
  · intro team hteam
    unfold build_optimal_team at hteam
    by_cases hlen : (cleanPool pool).length < 15
    · simp only [if_pos hlen] at hteam; exact absurd hteam (by simp)
    · simp only [if_neg hlen] at hteam
      by_cases hst : (solve (cleanPool pool)
          (wildcardConstraints (cleanPool pool) true)).status = SolveStatus.Optimal
      · simp only [hst, ne_eq, not_true_eq_false, if_neg, if_false,
          Option.some.injEq] at hteam
        subst hteam
        exact feasible_selectTeam_invariants _ _ _
          (hard_subset_wildcard (cleanPool pool) true) (h2 hst)
      · simp only [ne_eq, hst, not_false_eq_true, if_pos, if_true] at hteam
        by_cases hfb : (solve (cleanPool pool)
            (hardConstraints (cleanPool pool))).status = SolveStatus.Optimal
        · simp only [if_pos hfb, Option.some.injEq] at hteam
          subst hteam
          exact feasible_selectTeam_invariants _ _ _ (fun c hc => hc) (h1 hfb)
        · simp only [if_neg hfb] at hteam; exact absurd hteam (by simp)
  · intro hst team hteam
    unfold optimize_team_selection at hteam
    by_cases hchk : check_squad_viability pool2 = true
    · simp only [if_pos hchk, if_pos hst, Option.some.injEq] at hteam
      subst hteam
      exact feasible_selectTeam_invariants _ _ _ (fun c hc => hc) (h3 hst)
    · simp only [if_neg hchk] at hteam; exact absurd hteam (by simp)

/-- Witness for the amended C1 at a concrete pool and solver: the squad
extracted from the `Optimal` demo solve satisfies every invariant. -/
theorem optimal_extraction_satisfies_squad_invariants_witness :
    squadInvariants demoPool :=
  (optimal_extraction_satisfies_squad_invariants goodSolve id (fun _ => none)
      demoRawPool demoPool
      (by with_unfolding_all decide) (by with_unfolding_all decide)
      (by with_unfolding_all decide)).1 demoPool
    (by with_unfolding_all decide)

/-! ### Claim C2 -/

lemma availableCount_eq_filter_length (pool : List Player) (p : Pos) :
    availableCount pool p =
      ((pool.filter fun t => decide (t.pos = p)).map fun t => t.price).length := by
  unfold availableCount posCount
  rw [List.countP_eq_length_filter, List.length_map]

lemma nsmallestPrices_length (pool : List Player) (p : Pos) :
    (nsmallestPrices pool p).length =
      min (positionQuota p) (availableCount pool p) := by
  unfold nsmallestPrices
  rw [List.length_take, List.length_insertionSort, ← availableCount_eq_filter_length]

lemma all_positions_iff (f : Pos → Prop) [DecidablePred f] :
    (allPositions.all fun p => decide (f p)) = true ↔ ∀ p : Pos, f p := by
  simp only [List.all_eq_true, decide_eq_true_eq]
  constructor
  · intro h p; exact h p (by cases p <;> simp [allPositions])
  · intro h p _; exact h p

/-- C2: `check_squad_viability` succeeds iff every position has at least
its quota of candidates and the sum over positions of the quota-many
cheapest position prices fits the budget; and when it fails,
`optimize_team_selection` returns the empty sentinel at once — no
constraint system is ever handed to the solver and no squad is produced,
whatever the solver, pool-reduction step or greedy fallback would do. -/
theorem check_squad_viability_spec (pool : List Player) :
    (check_squad_viability pool = true ↔
      (∀ p : Pos, positionQuota p ≤ availableCount pool p) ∧ minCost pool ≤ budget) ∧
    (check_squad_viability pool = false →
      ∀ (solve : Solver) (filterStep : List Player → List Player)
        (fallback : List Player → Option (List Player)),
        optimize_team_selection solve filterStep fallback pool = ⟨[], none⟩) := by
  have hlen : (∀ p : Pos, positionQuota p ≤ availableCount pool p) →
      (allPositions.all fun p =>
        decide (positionQuota p ≤ (nsmallestPrices pool p).length)) = true := by
    intro h
    simp only [List.all_eq_true, decide_eq_true_eq]
    intro p _
    rw [nsmallestPrices_length]
    exact le_min (le_refl _) (h p)
  constructor
  · unfold check_squad_viability
    constructor
    · intro hcheck
      by_cases h1 : (allPositions.all fun p =>
          decide (positionQuota p ≤ availableCount pool p)) = true
      · rw [if_pos h1] at hcheck
        by_cases h2 : (allPositions.all fun p =>
            decide (positionQuota p ≤ (nsmallestPrices pool p).length)) = true
        · rw [if_pos h2] at hcheck
          exact ⟨(all_positions_iff _).mp h1, of_decide_eq_true hcheck⟩
        · rw [if_neg h2] at hcheck; exact absurd hcheck (by simp)
      · rw [if_neg h1] at hcheck; exact absurd hcheck (by simp)
    · rintro ⟨hq, hc⟩
      rw [if_pos ((all_positions_iff _).mpr hq), if_pos (hlen hq)]
      exact decide_eq_true hc
  · intro hfail solve filterStep fallback
    unfold optimize_team_selection
    rw [if_neg (by rw [hfail]; exact Bool.false_ne_true)]

/-- Witness for C2 at a concrete failing pool: the empty pool fails the
check (no GK available) and `optimize_team_selection` returns the
sentinel with zero solver calls. -/
theorem check_squad_viability_spec_witness :
    optimize_team_selection badSolve id (fun _ => none) [] = ⟨[], none⟩ :=
  (check_squad_viability_spec []).2 (by with_unfolding_all decide)
    badSolve id (fun _ => none)

/-! ### Claim C3 -/

/-- C3 counterexample.  "Whenever the LP solver terminates with any status
other than Optimal, the Squad Selector … returns no squad" is false on
the code: `build_optimal_team` with `mini_league_mode=False` extracts and
returns the solver's leftover assignment after a `NotSolved` termination
(wildcard_optimizer.py lines 339-355; the status check only gates the
mini-league fallback, not the extraction). -/
theorem nonoptimal_termination_still_returns_squad :
    (badSolve (cleanPool demoRawPool)
        (wildcardConstraints (cleanPool demoRawPool) false)).status ≠
      SolveStatus.Optimal ∧
    (build_optimal_team badSolve false demoRawPool).result ≠ none := by
  constructor <;> with_unfolding_all decide

/-- C3 (amended): `stage1_build_viable_team` returns `None` whenever its
solve is not `Optimal`, and `build_optimal_team` with
`mini_league_mode=True` returns `None` whenever both its first solve and
its fallback solve are not `Optimal`; the guarantee does not extend to
`build_optimal_team` with `mini_league_mode=False` (which extracts the
non-optimal leftover assignment — the counterexample) nor to
`optimize_team_selection` (which on a non-optimal status hands the pool
to the greedy `build_budget_team` fallback, which can return a squad). -/
theorem nonoptimal_rejection_amended (solve : Solver) (pool : List RawPlayer) :
    ((solve (cleanPool pool) (hardConstraints (cleanPool pool))).status ≠
        SolveStatus.Optimal →
      (stage1_build_viable_team solve pool).result = none) ∧
    ((solve (cleanPool pool) (wildcardConstraints (cleanPool pool) true)).status ≠
        SolveStatus.Optimal →
      (solve (cleanPool pool) (hardConstraints (cleanPool pool))).status ≠
        SolveStatus.Optimal →
      (build_optimal_team solve true pool).result = none) := by
  constructor
  · intro hst
    unfold stage1_build_viable_team
    by_cases hlen : (cleanPool pool).length < 15
    · rw [if_pos hlen]
    · rw [if_neg hlen, if_neg hst]
  · intro hst hfb
    unfold build_optimal_team
    by_cases hlen : (cleanPool pool).length < 15
    · rw [if_pos hlen]
    · rw [if_neg hlen, if_pos hst, if_pos rfl, if_neg hfb]

/-- Witness for the amended C3: with the `NotSolved` demo solver both
selectors covered by the guarantee produce no squad. -/
theorem nonoptimal_rejection_amended_witness :
    (stage1_build_viable_team badSolve demoRawPool).result = none ∧
    (build_optimal_team badSolve true demoRawPool).result = none :=
  ⟨(nonoptimal_rejection_amended badSolve demoRawPool).1
     (by with_unfolding_all decide),
   (nonoptimal_rejection_amended badSolve demoRawPool).2
     (by with_unfolding_all decide) (by with_unfolding_all decide)⟩

/-! ### Claim C7 -/

/-- C7 counterexample.  "If the first solve terminates not-optimal, the
core performs exactly one fallback re-solve …" is false on the code: with
`mini_league_mode=False` a non-optimal first solve triggers no fallback
at all — exactly one constraint system is ever handed to the solver — and
a squad is still returned from the non-optimal leftover assignment. -/
theorem no_fallback_resolve_outside_mini_mode :
    (badSolve (cleanPool demoRawPool)
        (wildcardConstraints (cleanPool demoRawPool) false)).status ≠
      SolveStatus.Optimal ∧
    ((build_optimal_team badSolve false demoRawPool).solves).length = 1 ∧
    (build_optimal_team badSolve false demoRawPool).result ≠ none := by
  refine ⟨?_, ?_, ?_⟩ <;> with_unfolding_all decide

/-- C7 (amended): in `mini_league_mode=True`, when the first solve is not
`Optimal`, `build_optimal_team` performs exactly one fallback re-solve —
the solve log is the first system followed by the fallback system, so the
attempt is observable — where the fallback system is precisely the first
system with the two differential soft constraints removed and every hard
constraint (budget, squad size, position quotas, club caps) kept; and if
the fallback solve is also not `Optimal`, no squad is returned. -/
theorem fallback_resolve_spec (solve : Solver) (pool : List RawPlayer)
    (hlen : ¬ (cleanPool pool).length < 15)
    (hfail : (solve (cleanPool pool)
        (wildcardConstraints (cleanPool pool) true)).status ≠ SolveStatus.Optimal) :
    (build_optimal_team solve true pool).solves =
      [wildcardConstraints (cleanPool pool) true, hardConstraints (cleanPool pool)] ∧
    wildcardConstraints (cleanPool pool) true =
      hardConstraints (cleanPool pool) ++
        [Constraint.minDifferentials, Constraint.maxTemplate] ∧
    ((solve (cleanPool pool) (hardConstraints (cleanPool pool))).status ≠
        SolveStatus.Optimal →
      (build_optimal_team solve true pool).result = none) := by
  refine ⟨?_, rfl, ?_⟩
  · unfold build_optimal_team
    rw [if_neg hlen, if_pos hfail, if_pos rfl]
    by_cases hfb : (solve (cleanPool pool)
        (hardConstraints (cleanPool pool))).status = SolveStatus.Optimal
    · rw [if_pos hfb]
    · rw [if_neg hfb]
  · intro hfb
    unfold build_optimal_team
    rw [if_neg hlen, if_pos hfail, if_pos rfl, if_neg hfb]

/-- Witness for the amended C7 at the demo pool with the `NotSolved`
solver: the log shows the single observable fallback re-solve and no
squad is returned. -/
theorem fallback_resolve_spec_witness :
    (build_optimal_team badSolve true demoRawPool).solves =
      [wildcardConstraints (cleanPool demoRawPool) true,
       hardConstraints (cleanPool demoRawPool)] ∧
    (build_optimal_team badSolve true demoRawPool).result = none := by
  have h := fallback_resolve_spec badSolve demoRawPool
    (by with_unfolding_all decide) (by with_unfolding_all decide)
  exact ⟨h.1, h.2.2 (by with_unfolding_all decide)⟩

/-! ### Claim C10 -/

/-- C10: if fewer than 15 candidates survive the cleaning step (dropping
rows whose score or price is NaN/±inf), both `stage1_build_viable_team`
and `build_optimal_team` return `None` with an empty solve log — the ILP
is never constructed and the solver never invoked. -/
theorem selector_returns_none_when_pool_too_small (solve : Solver) (mini : Bool)
    (pool : List RawPlayer) (h : (cleanPool pool).length < 15) :
    stage1_build_viable_team solve pool = ⟨[], none⟩ ∧
    build_optimal_team solve mini pool = ⟨[], none⟩ := by
  constructor
  · unfold stage1_build_viable_team; rw [if_pos h]
  · unfold build_optimal_team; rw [if_pos h]

/-- Witness for C10: a single raw row whose score column is NaN/±inf is
dropped by cleaning, leaving 0 < 15 candidates; both selectors return
`None` without a solver call. -/
theorem selector_returns_none_when_pool_too_small_witness :
    stage1_build_viable_team badSolve
        [⟨1, Pos.GK, 1, some 4, none, 10⟩] = ⟨[], none⟩ ∧
    build_optimal_team badSolve false
        [⟨1, Pos.GK, 1, some 4, none, 10⟩] = ⟨[], none⟩ :=
  selector_returns_none_when_pool_too_small badSolve false
    [⟨1, Pos.GK, 1, some 4, none, 10⟩] (by with_unfolding_all decide)

/-! ### Claim C6 -/

/-- C6: the ownership multiplier is exactly the four-band step function
(1.15 below 5%, 1.08 on [5,15), 1.00 on [15,30), 0.95 at and above 30%),
and each candidate's adjusted (differential) score is its score times the
multiplier of its ownership. -/
theorem ownership_multiplier_spec (x : ℚ) (_h0 : 0 ≤ x) (_h100 : x ≤ 100) :
    ((x < 5 → get_ownership_multiplier x = 115/100) ∧
     (5 ≤ x → x < 15 → get_ownership_multiplier x = 108/100) ∧
     (15 ≤ x → x < 30 → get_ownership_multiplier x = 1) ∧
     (30 ≤ x → get_ownership_multiplier x = 95/100)) ∧
    ∀ q : Player, differentialScore q = q.score * get_ownership_multiplier q.ownership := by
  refine ⟨⟨?_, ?_, ?_, ?_⟩, fun q => rfl⟩
  · intro h; unfold get_ownership_multiplier; rw [if_pos h]
  · intro h5 h15
    unfold get_ownership_multiplier
    rw [if_neg (not_lt.mpr h5), if_pos h15]
  · intro h15 h30
    unfold get_ownership_multiplier
    rw [if_neg (not_lt.mpr (by linarith)), if_neg (not_lt.mpr h15), if_pos h30]
  · intro h30
    unfold get_ownership_multiplier
    rw [if_neg (not_lt.mpr (by linarith)), if_neg (not_lt.mpr (by linarith)),
      if_neg (not_lt.mpr h30)]

/-- Witness for C6 at concrete ownership percentages in each band. -/
theorem ownership_multiplier_spec_witness :
    get_ownership_multiplier 3 = 115/100 ∧ get_ownership_multiplier 10 = 108/100 ∧
    get_ownership_multiplier 20 = 1 ∧ get_ownership_multiplier 45 = 95/100 :=
  ⟨((ownership_multiplier_spec 3 (by norm_num) (by norm_num)).1).1 (by norm_num),
   ((ownership_multiplier_spec 10 (by norm_num) (by norm_num)).1).2.1
     (by norm_num) (by norm_num),
   ((ownership_multiplier_spec 20 (by norm_num) (by norm_num)).1).2.2.1
     (by norm_num) (by norm_num),
   ((ownership_multiplier_spec 45 (by norm_num) (by norm_num)).1).2.2.2 (by norm_num)⟩

/-! ### Claim C8 -/

/-- C8: the cleaning prologue floors every surviving candidate's score at
0.1, so every objective coefficient is strictly positive — with an
all-zero-score pool every cleaned score is exactly 0.1 — and for such a
pool whose quotas and budget are satisfiable (witnessed by a feasible
assignment), `stage1_build_viable_team` backed by a sound and complete
solver still returns a 15-player squad rather than failing. -/
theorem score_flooring_and_zero_scores_spec (pool : List RawPlayer) (solve : Solver)
    (ch : List Bool)
    (hzero : ∀ r ∈ pool, r.score = some 0)
    (hfeas : ChoiceFeasible (cleanPool pool) (hardConstraints (cleanPool pool)) ch)
    (hsound : SoundAt solve (cleanPool pool) (hardConstraints (cleanPool pool)))
    (hcomplete :
      (∃ ch2, ChoiceFeasible (cleanPool pool) (hardConstraints (cleanPool pool)) ch2) →
      (solve (cleanPool pool) (hardConstraints (cleanPool pool))).status =
        SolveStatus.Optimal) :
    (∀ (pool2 : List RawPlayer), ∀ q ∈ cleanPool pool2,
      (1/10 : ℚ) ≤ q.score ∧ 0 < q.score) ∧
    (∀ q ∈ cleanPool pool, q.score = 1/10) ∧
    ∃ team, (stage1_build_viable_team solve pool).result = some team ∧
      team.length = 15 ∧ squadInvariants team := by
  refine ⟨?_, ?_, ?_⟩
  · intro pool2 q hq
    obtain ⟨q0, hq0, rfl⟩ := List.mem_map.mp hq
    constructor
    · exact le_max_right _ _
    · exact lt_of_lt_of_le (by norm_num) (le_max_right q0.score (1/10))
  · intro q hq
    obtain ⟨q0, hq0, rfl⟩ := List.mem_map.mp hq
    obtain ⟨r, hr, hfr⟩ := List.mem_filterMap.mp hq0
    have hsc := hzero r hr
    have hq0score : q0.score = 0 := by
      cases hpr : r.price with
      | none => rw [hpr, hsc] at hfr; exact absurd hfr (by simp [dropInvalid])
      | some pr =>
        rw [hpr, hsc] at hfr
        simp only at hfr
        cases hfr
        rfl
    show max q0.score (1/10) = 1/10
    rw [hq0score]; norm_num
  · have hst := hcomplete ⟨ch, hfeas⟩
    have h15 : (selectTeam (cleanPool pool) ch).length = 15 := by
      have := hfeas.2 _ (mem_hardConstraints_size (cleanPool pool))
      exact this
    have hlen : ¬ (cleanPool pool).length < 15 := by
      have hle := selectTeam_length_le (cleanPool pool) ch
      omega
    refine ⟨selectTeam (cleanPool pool)
      (solve (cleanPool pool) (hardConstraints (cleanPool pool))).choice, ?_, ?_, ?_⟩
    · unfold stage1_build_viable_team
      rw [if_neg hlen, if_pos hst]
    · exact (hsound hst).2 _ (mem_hardConstraints_size (cleanPool pool))
    · exact feasible_selectTeam_invariants _ _ _ (fun c hc => hc) (hsound hst)

/-- Witness for C8: the demo pool with all scores 0 — every cleaned score
is exactly 0.1 and the complete demo solver returns a valid 15-player
squad. -/
theorem score_flooring_and_zero_scores_spec_witness :
    (∀ (pool2 : List RawPlayer), ∀ q ∈ cleanPool pool2,
      (1/10 : ℚ) ≤ q.score ∧ 0 < q.score) ∧
    (∀ q ∈ cleanPool demoRawPool0, q.score = 1/10) ∧
    ∃ team, (stage1_build_viable_team goodSolve demoRawPool0).result = some team ∧
      team.length = 15 ∧ squadInvariants team :=
  score_flooring_and_zero_scores_spec demoRawPool0 goodSolve demoChoice
    (by with_unfolding_all decide) (by with_unfolding_all decide)
    (by with_unfolding_all decide) (fun _ => rfl)

/-! ### Stage-2 refinement lemmas -/

lemma argminFirst_mem {f : Player → ℚ} :
    ∀ {l : List Player} {a : Player}, argminFirst f l = some a → a ∈ l := by
  intro l
  induction l with
  | nil => intro a h; simp [argminFirst] at h
  | cons x xs ih =>
    intro a h
    cases hxs : argminFirst f xs with
    | none =>
      simp only [argminFirst, hxs] at h
      injection h with h2
      exact h2 ▸ List.mem_cons_self _ _
    | some m =>
      simp only [argminFirst, hxs] at h
      by_cases hlt : f m < f x
      · rw [if_pos hlt] at h
        injection h with h2
        exact List.mem_cons_of_mem _ (h2 ▸ ih hxs)
      · rw [if_neg hlt] at h
        injection h with h2
        exact h2 ▸ List.mem_cons_self _ _

lemma argminFirst_eq_none {f : Player → ℚ} :
    ∀ {l : List Player}, argminFirst f l = none → l = [] := by
  intro l h
  cases l with
  | nil => rfl
  | cons x xs =>
    exfalso
    cases hxs : argminFirst f xs with
    | none => simp only [argminFirst, hxs] at h; exact absurd h (by simp)
    | some m =>
      simp only [argminFirst, hxs] at h
      by_cases hlt : f m < f x
      · rw [if_pos hlt] at h; exact absurd h (by simp)
      · rw [if_neg hlt] at h; exact absurd h (by simp)

lemma argminFirst_le {f : Player → ℚ} :
    ∀ {l : List Player} {a : Player}, argminFirst f l = some a →
      ∀ x ∈ l, f a ≤ f x := by
  intro l
  induction l with
  | nil => intro a h; simp [argminFirst] at h
  | cons x xs ih =>
    intro a h y hy
    cases hxs : argminFirst f xs with
    | none =>
      simp only [argminFirst, hxs] at h
      injection h with h2
      subst h2
      have : xs = [] := argminFirst_eq_none hxs
      subst this
      rcases List.mem_cons.mp hy with rfl | hy2
      · exact le_refl _
      · simp at hy2
    | some m =>
      simp only [argminFirst, hxs] at h
      rcases List.mem_cons.mp hy with rfl | hy2
      · by_cases hlt : f m < f y
        · rw [if_pos hlt] at h
          injection h with h2
          subst h2
          exact le_of_lt hlt
        · rw [if_neg hlt] at h
          injection h with h2
          subst h2
          exact le_refl _
      · by_cases hlt : f m < f x
        · rw [if_pos hlt] at h
          injection h with h2
          subst h2
          exact ih hxs y hy2
        · rw [if_neg hlt] at h
          injection h with h2
          subst h2
          exact le_trans (not_lt.mp hlt) (ih hxs y hy2)

lemma argmaxFirst_mem {f : Player → ℚ} :
    ∀ {l : List Player} {a : Player}, argmaxFirst f l = some a → a ∈ l := by
  intro l
  induction l with
  | nil => intro a h; simp [argmaxFirst] at h
  | cons x xs ih =>
    intro a h
    cases hxs : argmaxFirst f xs with
    | none =>
      simp only [argmaxFirst, hxs] at h
      injection h with h2
      exact h2 ▸ List.mem_cons_self _ _
    | some m =>
      simp only [argmaxFirst, hxs] at h
      by_cases hlt : f x < f m
      · rw [if_pos hlt] at h
        injection h with h2
        exact List.mem_cons_of_mem _ (h2 ▸ ih hxs)
      · rw [if_neg hlt] at h
        injection h with h2
        exact h2 ▸ List.mem_cons_self _ _

lemma swapCandidate_facts {allP team : List Player} {p : Pos} {w b : Player}
    (h : swapCandidate allP team p = some (w, b)) :
    w ∈ team ∧ w.pos = p ∧
    (∀ t ∈ team, t.pos = p → differentialScore w ≤ differentialScore t) ∧
    b ∈ allP ∧ b.pos = p ∧ (∀ t ∈ team, t.id ≠ b.id) ∧
    b.price ≤ budget - (priceSum team - w.price) ∧
    differentialScore w * (105/100) < differentialScore b := by
  unfold swapCandidate at h
  by_cases hemp : (currentPos team p).isEmpty || (availPos allP team p).isEmpty
  · rw [if_pos hemp] at h; exact absurd h (by simp)
  · rw [if_neg hemp] at h
    cases hmin : argminFirst differentialScore (currentPos team p) with
    | none => rw [hmin] at h; exact absurd h (by simp)
    | some worst =>
      rw [hmin] at h
      cases hmax : argmaxFirst differentialScore (affordablePos allP team p worst) with
      | none => simp only [hmax] at h; exact absurd h (by simp)
      | some best =>
        simp only [hmax] at h
        by_cases hthr : differentialScore worst * (105/100) < differentialScore best
        · rw [if_pos hthr] at h
          injection h with h2
          obtain ⟨rfl, rfl⟩ := Prod.mk.injEq .. ▸ Prod.ext_iff.mp h2
          have hwcur := argminFirst_mem hmin
          have hwfacts := List.mem_filter.mp hwcur
          have hbaff := argmaxFirst_mem hmax
          have hbaff2 := List.mem_filter.mp hbaff
          have hbav := List.mem_filter.mp hbaff2.1
          have hbflags := Bool.and_eq_true_iff.mp hbav.2
          refine ⟨hwfacts.1, of_decide_eq_true hwfacts.2, ?_, hbav.1,
            of_decide_eq_true hbflags.1, ?_, of_decide_eq_true hbaff2.2, hthr⟩
          · intro t ht htp
            exact argminFirst_le hmin t
              (List.mem_filter.mpr ⟨ht, decide_eq_true htp⟩)
          · intro t ht
            have := (List.all_eq_true.mp hbflags.2) t ht
            exact of_decide_eq_true this
        · rw [if_neg hthr] at h; exact absurd h (by simp)

lemma perm_cons_filter_ne {team : List Player} {w : Player}
    (hw : w ∈ team) (hnd : (team.map fun t => t.id).Nodup) :
    team.Perm (w :: team.filter fun t => decide (t.id ≠ w.id)) := by
  induction team with
  | nil => cases hw
  | cons a ts ih =>
    rw [List.map_cons, List.nodup_cons] at hnd
    rcases List.mem_cons.mp hw with rfl | hmem
    · have hfil : ts.filter (fun t => decide (t.id ≠ w.id)) = ts := by
        rw [List.filter_eq_self]
        intro t ht
        apply decide_eq_true
        intro heq
        exact hnd.1 (heq ▸ List.mem_map.mpr ⟨t, ht, rfl⟩)
      rw [List.filter_cons, if_neg (by simp), hfil]
    · have ha : a.id ≠ w.id := by
        intro heq
        exact hnd.1 (heq ▸ List.mem_map.mpr ⟨w, hmem, rfl⟩)
      rw [List.filter_cons, if_pos (decide_eq_true ha)]
      exact ((ih hmem hnd.2).cons a).trans (List.Perm.swap w a _)

lemma filter_id_eq_single {pool : List Player} {b : Player}
    (hb : b ∈ pool) (hnd : (pool.map fun t => t.id).Nodup) :
    pool.filter (fun q => decide (q.id = b.id)) = [b] := by
  induction pool with
  | nil => cases hb
  | cons a ts ih =>
    rw [List.map_cons, List.nodup_cons] at hnd
    rcases List.mem_cons.mp hb with rfl | hmem
    · rw [List.filter_cons, if_pos (decide_eq_true rfl)]
      have : ts.filter (fun q => decide (q.id = b.id)) = [] := by
        rw [List.filter_eq_nil_iff]
        intro t ht hdec
        exact hnd.1 (of_decide_eq_true hdec ▸ List.mem_map.mpr ⟨t, ht, rfl⟩)
      rw [this]
    · have ha : a.id ≠ b.id := by
        intro heq
        exact hnd.1 (heq ▸ List.mem_map.mpr ⟨b, hmem, rfl⟩)
      rw [List.filter_cons, if_neg (by simp [ha])]
      exact ih hmem hnd.2

lemma stage2Step_fst_invariant (allP : List Player)
    (hpool : (allP.map fun q => q.id).Nodup)
    (st : List Player × List SwapRec) (p : Pos)
    (hinv : teamInvariant st.1) : teamInvariant (stage2Step allP st p).1 := by
  unfold stage2Step
  by_cases hb : 3 ≤ st.2.length
  · rw [if_pos hb]; exact hinv
  · rw [if_neg hb]
    cases hsw : swapCandidate allP st.1 p with
    | none => exact hinv
    | some wb =>
      obtain ⟨w, b⟩ := wb
      obtain ⟨hwmem, hwpos, -, hbmemP, hbpos, hbid, hbprice, -⟩ := swapCandidate_facts hsw
      obtain ⟨hlen, hquota, hprice, hnd⟩ := hinv
      have hfil := perm_cons_filter_ne hwmem hnd
      have hb1 := filter_id_eq_single hbmemP hpool
      simp only [hb1]
      set fl := st.1.filter fun t => decide (t.id ≠ w.id) with hfl
      have hlenfl : fl.length + 1 = st.1.length := by
        have h2 := hfil.length_eq
        rw [List.length_cons] at h2
        omega
      refine ⟨?_, ?_, ?_, ?_⟩
      · rw [List.length_append, List.length_singleton]
        rw [← hlen]
        omega
      · intro pr
        have hp2 : posCount st.1 pr =
            posCount fl pr + (if decide (w.pos = pr) then 1 else 0) := by
          unfold posCount
          rw [hfil.countP_eq, List.countP_cons]
        have hnew : posCount (fl ++ [b]) pr =
            posCount fl pr + (if decide (b.pos = pr) then 1 else 0) := by
          unfold posCount
          rw [List.countP_append]
          congr 1
          rw [List.countP_cons, List.countP_nil, Nat.zero_add]
        rw [hnew, hbpos, ← hwpos, ← hp2]
        exact hquota pr
      · have hps : priceSum st.1 = w.price + priceSum fl := by
          have h2 := (hfil.map (fun t => t.price)).sum_eq
          simp only [List.map_cons, List.sum_cons] at h2
          exact h2
        have hpnew : priceSum (fl ++ [b]) = priceSum fl + b.price := by
          simp [priceSum, List.map_append, List.sum_append]
        rw [hpnew]
        linarith
      · rw [List.map_append]
        rw [List.nodup_append]
        have h1 : ((w :: fl).map fun t => t.id).Nodup := ((hfil.map _).nodup_iff).mp hnd
        rw [List.map_cons, List.nodup_cons] at h1
        refine ⟨h1.2, List.nodup_singleton _, ?_⟩
        intro x hx hx2
        obtain ⟨t, ht, rfl⟩ := List.mem_map.mp hx
        simp only [List.map_cons, List.map_nil, List.mem_singleton] at hx2
        exact hbid t (List.mem_of_mem_filter ht) hx2

lemma stage2_fold_invariant (allP : List Player)
    (hpool : (allP.map fun q => q.id).Nodup) :
    ∀ (ps : List Pos) (st : List Player × List SwapRec),
      teamInvariant st.1 → teamInvariant (ps.foldl (stage2Step allP) st).1 := by
  intro ps
  induction ps with
  | nil => intro st h; exact h
  | cons p ps ih =>
    intro st h
    exact ih _ (stage2Step_fst_invariant allP hpool st p h)

lemma stage2_fold_log_le3 (allP : List Player) :
    ∀ (ps : List Pos) (st : List Player × List SwapRec),
      st.2.length ≤ 3 → ((ps.foldl (stage2Step allP) st).2).length ≤ 3 := by
  intro ps
  induction ps with
  | nil => intro st h; exact h
  | cons p ps ih =>
    intro st h
    apply ih
    unfold stage2Step
    by_cases hb : 3 ≤ st.2.length
    · rw [if_pos hb]; exact h
    · rw [if_neg hb]
      cases swapCandidate allP st.1 p with
      | none => exact h
      | some wb =>
        obtain ⟨w, b⟩ := wb
        simp only [List.length_append, List.length_singleton]
        omega

lemma stage2_fold_log (allP : List Player) :
    ∀ (ps : List Pos) (st : List Player × List SwapRec),
      ∃ ext : List SwapRec, (ps.foldl (stage2Step allP) st).2 = st.2 ++ ext ∧
        (ext.map fun s => s.1).Sublist ps := by
  intro ps
  induction ps with
  | nil => intro st; exact ⟨[], by simp, List.nil_sublist _⟩
  | cons p ps ih =>
    intro st
    by_cases hb : 3 ≤ st.2.length
    · have hstep : stage2Step allP st p = st := by
        unfold stage2Step; rw [if_pos hb]
      rw [List.foldl_cons, hstep]
      obtain ⟨ext, hext, hsub⟩ := ih st
      exact ⟨ext, hext, hsub.cons p⟩
    · cases hsw : swapCandidate allP st.1 p with
      | none =>
        have hstep : stage2Step allP st p = st := by
          unfold stage2Step; rw [if_neg hb, hsw]
        rw [List.foldl_cons, hstep]
        obtain ⟨ext, hext, hsub⟩ := ih st
        exact ⟨ext, hext, hsub.cons p⟩
      | some wb =>
        obtain ⟨w, b⟩ := wb
        rw [List.foldl_cons]
        obtain ⟨ext, hext, hsub⟩ := ih (stage2Step allP st p)
        have hstep : (stage2Step allP st p).2 = st.2 ++ [(p, w, b)] := by
          unfold stage2Step; rw [if_neg hb, hsw]
        refine ⟨(p, w, b) :: ext, ?_, ?_⟩
        · rw [hext, hstep, List.append_assoc, List.singleton_append]
        · rw [List.map_cons]
          exact hsub.cons₂ p

/-! ### Claim C4 -/

/-- C4: with a candidate pool of pairwise-distinct ids (the data model's
id uniqueness), each iteration of the stage-2 swap loop — and hence the
whole refinement run — preserves the squad invariants: exactly 15
players, exact position quotas, total price at most the budget (the
accepted replacement is constrained to the freed headroom), and distinct
ids. -/
theorem stage2_preserves_squad_invariants (allP team : List Player)
    (log : List SwapRec) (p : Pos)
    (hpool : (allP.map fun q => q.id).Nodup)
    (hinv : teamInvariant team) :
    teamInvariant (stage2Step allP (team, log) p).1 ∧
    teamInvariant (stage2_apply_differential_optimization team allP).1 :=
  ⟨stage2Step_fst_invariant allP hpool (team, log) p hinv,
   stage2_fold_invariant allP hpool swapOrder (team, []) hinv⟩

/-- Witness for C4: the demo squad and demo pool (where one FWD swap
actually fires) — the refined squad still satisfies the invariant. -/
theorem stage2_preserves_squad_invariants_witness :
    teamInvariant (stage2Step demoAll (demoPool, []) Pos.FWD).1 ∧
    teamInvariant (stage2_apply_differential_optimization demoPool demoAll).1 :=
  stage2_preserves_squad_invariants demoAll demoPool [] Pos.FWD
    (by with_unfolding_all decide) (by with_unfolding_all decide)

/-! ### Claim C5 -/

/-- C5: a refinement run performs at most 3 swaps, and a swap is decided
only for the position's lowest-adjusted-score squad member `w` against an
out-of-squad same-position candidate `b` with
`differentialScore b > differentialScore w * 1.05` and
`b.price ≤ budget - (squad total price - w.price)`. -/
theorem stage2_swap_budget_and_conditions :
    (∀ team0 allP : List Player,
      ((stage2_apply_differential_optimization team0 allP).2).length ≤ 3) ∧
    (∀ (allP team : List Player) (p : Pos) (w b : Player),
      swapCandidate allP team p = some (w, b) →
      w ∈ team ∧ w.pos = p ∧
      (∀ t ∈ team, t.pos = p → differentialScore w ≤ differentialScore t) ∧
      b ∈ allP ∧ (∀ t ∈ team, t.id ≠ b.id) ∧
      differentialScore w * (105/100) < differentialScore b ∧
      b.price ≤ budget - (priceSum team - w.price)) := by
  constructor
  · intro team0 allP
    exact stage2_fold_log_le3 allP swapOrder (team0, []) (by simp)
  · intro allP team p w b h
    obtain ⟨h1, h2, h3, h4, -, h6, h7, h8⟩ := swapCandidate_facts h
    exact ⟨h1, h2, h3, h4, h6, h8, h7⟩

/-- Witness for C5: on the demo data the FWD swap decision picks the
worst demo forward and the cheap high-scoring differential, and the run
makes exactly one swap. -/
theorem stage2_swap_budget_and_conditions_witness :
    ((stage2_apply_differential_optimization demoPool demoAll).2).length ≤ 3 ∧
    mkDemoPlayer 13 Pos.FWD ∈ demoPool ∧
    differentialScore (mkDemoPlayer 13 Pos.FWD) * (105/100) < differentialScore extraFWD :=
  ⟨stage2_swap_budget_and_conditions.1 demoPool demoAll,
   (stage2_swap_budget_and_conditions.2 demoAll demoPool Pos.FWD
      (mkDemoPlayer 13 Pos.FWD) extraFWD (by with_unfolding_all decide)).1,
   (stage2_swap_budget_and_conditions.2 demoAll demoPool Pos.FWD
      (mkDemoPlayer 13 Pos.FWD) extraFWD (by with_unfolding_all decide)).2.2.2.2.2.1⟩

/-! ### Claim C9 -/

/-- C9: the stage-2 loop visits each position once, in the fixed order
FWD, MID, DEF, GK, and swaps at most one player per position: the
positions of the chronological swap log form a (duplicate-free) sublist
of that fixed order, so no two swaps of a run ever share a position —
regardless of whether the 3-swap budget is exhausted. -/
theorem stage2_positions_visited_once_in_order (team0 allP : List Player) :
    ((stage2_apply_differential_optimization team0 allP).2.map fun s => s.1).Sublist
      swapOrder ∧
    ((stage2_apply_differential_optimization team0 allP).2.map fun s => s.1).Nodup := by
  obtain ⟨ext, hext, hsub⟩ := stage2_fold_log allP swapOrder (team0, [])
  unfold stage2_apply_differential_optimization
  rw [hext]
  simp only [List.nil_append]
  exact ⟨hsub, hsub.nodup (by unfold swapOrder; decide)⟩

end FPL
